import Mathlib

/-!
Verification of the betty backtesting core.

This file gives a shallow embedding, in Lean 4, of the parts of the betty
trading/backtesting engine that the specification talks about:

* the fixed-point price model (`CurrencyAmount`, `Price`, `Frame`) from
  `src/core/price.rs`, with `rust_decimal::Decimal` modelled as `ℚ` and the
  6-decimal-place half-to-even rounding of currency arithmetic made explicit;
* the trade projection (`Trade.closed`, `Trade.openTrade`, exits) from
  `src/core/trade.rs`, where the `unwrap` of the checked currency division is
  modelled by an `Option` layer (`none` models a panic);
* market entry validation (`Market.validateEntry`) from `src/core/market.rs`,
  including the partial ordering of `CurrencyAmount` (comparisons between
  different currencies are `false`);
* the account state machine (`updatePrice`, `logOrder`) from
  `core/src/core/account.rs`, with the two strategy traits embedded as
  function parameters;
* the Donchian channel stop from `core/src/strategies/donchian.rs`;
* the streaming EMA from `core/src/core/maths.rs`.

Timestamps are carried as integers; no claim depends on calendar arithmetic.
-/

namespace Betty

/-- Decidable equality for `Except`, used to evaluate the fallible operations
on concrete inputs. -/
instance {ε α : Type} [DecidableEq ε] [DecidableEq α] : DecidableEq (Except ε α) := fun a b =>
  match a, b with
  | Except.ok x, Except.ok y =>
    if h : x = y then isTrue (by rw [h]) else isFalse (by simp [h])
  | Except.error x, Except.error y =>
    if h : x = y then isTrue (by rw [h]) else isFalse (by simp [h])
  | Except.ok _, Except.error _ => isFalse (by simp)
  | Except.error _, Except.ok _ => isFalse (by simp)

/-- Currency codes are an opaque, equality-comparable tag. -/
abbrev Currency := String

/-- Rounding of a rational to an integer (round half to even),
modelling the `MidpointNearestEven` strategy of `rust_decimal`. -/
def roundHalfEven (x : ℚ) : ℤ :=
  let n := ⌊x⌋
  let frac := x - (n : ℚ)
  if frac < 1/2 then n
  else if 1/2 < frac then n + 1
  else if Even n then n else n + 1

/-- Rounding to `CURRENCY_DECIMAL_PLACES = 6` decimal places
(`Decimal::round_dp(6)` in `src/core/price.rs`). -/
def roundDp6 (x : ℚ) : ℚ :=
  (roundHalfEven (x * 1000000) : ℚ) / 1000000

/-- A fixed-point decimal amount tagged with a currency
(`CurrencyAmount` in `src/core/price.rs`). -/
structure CurrencyAmount where
  amount : ℚ
  currency : Currency
deriving DecidableEq

namespace CurrencyAmount

/-- `impl Mul<Decimal> for CurrencyAmount`: scale by a dimensionless factor,
rounding the amount to 6 decimal places. -/
def mulD (a : CurrencyAmount) (d : ℚ) : CurrencyAmount :=
  ⟨roundDp6 (a.amount * d), a.currency⟩

/-- `impl Div<Decimal> for CurrencyAmount`: divide by a dimensionless factor,
rounding the amount to 6 decimal places. -/
def divD (a : CurrencyAmount) (d : ℚ) : CurrencyAmount :=
  ⟨roundDp6 (a.amount / d), a.currency⟩

/-- `impl Div<CurrencyAmount> for CurrencyAmount`: defined only when the
currencies match, via `Decimal::checked_div`, which yields `None` for a zero
divisor. -/
def divCC (a b : CurrencyAmount) : Option ℚ :=
  if a.currency = b.currency then
    if b.amount = 0 then none else some (a.amount / b.amount)
  else none

/-- The strict `<` induced by `impl PartialOrd for CurrencyAmount`
(`partial_cmp` is `None` across currencies, so `<` is `false` there). -/
def ltCA (a b : CurrencyAmount) : Bool :=
  a.currency = b.currency ∧ a.amount < b.amount

/-- The strict `>` induced by `impl PartialOrd for CurrencyAmount`
(`partial_cmp` is `None` across currencies, so `>` is `false` there). -/
def gtCA (a b : CurrencyAmount) : Bool :=
  a.currency = b.currency ∧ b.amount < a.amount

/-- Modelled from the spec: `AddAssign for CurrencyAmount` lives in the
`price.rs` of the `core` crate, which is not among the provided sources; the spec
says closing a position "adds its profit to balance", so addition is
amount-wise, keeping the currency tag of the left operand. -/
def add (a b : CurrencyAmount) : CurrencyAmount :=
  ⟨a.amount + b.amount, a.currency⟩

end CurrencyAmount

/-- Point values: signed fixed-point decimals (`Points` in `price.rs`). -/
abbrev Points := ℚ

/-- A two-sided quote (`Price` in `src/core/price.rs`). -/
structure Price where
  ask : Points
  bid : Points
deriving DecidableEq

/-- One OHLC candle (`Frame` in `src/core/price.rs`); the timestamp is an
abstract integer instant. -/
structure Frame where
  close : Price
  high : Price
  low : Price
  openP : Price
  close_time : ℤ
deriving DecidableEq

/-- Trade direction (`Direction` in `src/core/trade.rs`). -/
inductive Direction where
  | Buy
  | Sell
deriving DecidableEq

/-- An opening order (`Entry` in `src/core/trade.rs`). -/
structure Entry where
  position_id : String
  direction : Direction
  price : Points
  stop : Points
  size : CurrencyAmount
  time : ℤ
deriving DecidableEq

/-- A closing order (`Exit` in `src/core/trade.rs`). -/
structure Exit where
  position_id : String
  price : Points
  time : ℤ
deriving DecidableEq

/-- Orders (`Order` in `src/core/trade.rs`). -/
inductive Order where
  | Open (e : Entry)
  | Close (x : Exit)
  | Stop (x : Exit)
deriving DecidableEq

/-- Market trading rules (`Market` in `src/core/market.rs`). -/
structure Market where
  code : String
  margin_factor : ℚ
  min_deal_size : CurrencyAmount
  min_stop_distance : Points
deriving DecidableEq

/-- Errors of entry validation (`MarketError` in `src/core/market.rs`). -/
inductive MarketError where
  | DealTooSmall
  | StopTooClose
  | InsufficientBalance
deriving DecidableEq

namespace Market

/-- `Market::margin_requirement`: `order.size * order.price * margin_factor`,
each scalar multiplication rounding to 6 decimal places. -/
def marginRequirement (m : Market) (order : Entry) : CurrencyAmount :=
  (order.size.mulD order.price).mulD m.margin_factor

/-- `Market::validate_entry` from `src/core/market.rs`: three checks in fixed
order, first failure wins; the comparisons are the partial ones of
`CurrencyAmount`. A pure function of its arguments (the Rust method takes
`&self` and mutates nothing). -/
def validateEntry (m : Market) (order : Entry) (balance : CurrencyAmount) :
    Except MarketError Unit :=
  if order.size.ltCA m.min_deal_size then Except.error MarketError.DealTooSmall
  else if (m.marginRequirement order).gtCA balance then
    Except.error MarketError.InsufficientBalance
  else if |order.price - order.stop| < m.min_stop_distance then
    Except.error MarketError.StopTooClose
  else Except.ok ()

end Market

/-- Trade status (`TradeStatus` in `src/core/trade.rs`). -/
inductive TradeStatus where
  | OpenT
  | ClosedT
deriving DecidableEq

/-- Trade outcome (`TradeOutcome` in `src/core/trade.rs`). -/
inductive TradeOutcome where
  | Profit
  | Loss
deriving DecidableEq

/-- A row in the trade log (`Trade` in `src/core/trade.rs`). -/
structure Trade where
  id : String
  status : TradeStatus
  direction : Direction
  entry_time : ℤ
  entry_price : Points
  exit_time : Option ℤ
  exit_price : Option Points
  stop : Points
  size : CurrencyAmount
  risk : CurrencyAmount
  outcome : TradeOutcome
  price_diff : Points
  profit : CurrencyAmount
  risk_reward : ℚ
deriving DecidableEq

namespace Trade

/-- `Trade::open` from `src/core/trade.rs`: project an open trade from an
entry and the latest price. The Rust code computes `(profit / risk).unwrap()`;
the checked currency division returns `None` on a zero divisor, so the
`unwrap` panics there, which the `Option` layer models as `none`. -/
def openTrade (entry : Entry) (latest_price : Price) : Option Trade :=
  let price_diff := match entry.direction with
    | Direction.Buy => latest_price.bid - entry.price
    | Direction.Sell => latest_price.ask - entry.price
  let profit := match entry.direction with
    | Direction.Buy => entry.size.mulD (latest_price.bid - entry.price)
    | Direction.Sell => entry.size.mulD (entry.price - latest_price.ask)
  let outcome := if 0 < profit.amount then TradeOutcome.Profit else TradeOutcome.Loss
  let risk := entry.size.mulD |entry.price - entry.stop|
  match profit.divCC risk with
  | none => none
  | some rr => some
      { id := entry.position_id
        status := TradeStatus.OpenT
        direction := entry.direction
        entry_time := entry.time
        entry_price := entry.price
        exit_time := none
        exit_price := none
        stop := entry.stop
        size := entry.size
        risk := risk
        outcome := outcome
        price_diff := price_diff
        profit := profit
        risk_reward := rr }

/-- `Trade::closed` from `src/core/trade.rs`: project a closed trade from an
entry/exit pair. As in `openTrade`, the `unwrap` of the checked currency
division `(profit / risk).unwrap()` is modelled by `none` (a panic). -/
def closed (entry : Entry) (exitO : Exit) : Option Trade :=
  let price_diff := exitO.price - entry.price
  let profit := match entry.direction with
    | Direction.Buy => entry.size.mulD (exitO.price - entry.price)
    | Direction.Sell => entry.size.mulD (entry.price - exitO.price)
  let outcome := if 0 < profit.amount then TradeOutcome.Profit else TradeOutcome.Loss
  let risk := entry.size.mulD |entry.price - entry.stop|
  match profit.divCC risk with
  | none => none
  | some rr => some
      { id := entry.position_id
        status := TradeStatus.ClosedT
        direction := entry.direction
        entry_time := entry.time
        entry_price := entry.price
        exit_time := some exitO.time
        exit_price := some exitO.price
        stop := entry.stop
        size := entry.size
        risk := risk
        outcome := outcome
        price_diff := price_diff
        profit := profit
        risk_reward := rr }

end Trade

/-- Modelled from the spec: `Entry::exit` lives in `trade.rs` of the `core`
crate, which is not among the provided sources; it mirrors `Trade::exit`
in `src/core/trade.rs` and the stop/close rule of the spec ("at the current close
price: bid for Buy, ask for Sell"), carrying over the position id. -/
def Entry.exit (entry : Entry) (price : Price) (time : ℤ) : Exit :=
  { position_id := entry.position_id
    price := match entry.direction with
      | Direction.Buy => price.bid
      | Direction.Sell => price.ask
    time := time }

/-- Market trend (`Trend` in `core/src/core/strategy.rs`). -/
inductive Trend where
  | Neutral
  | Bullish
  | Bearish
deriving DecidableEq

/-- Risk strategy errors (`RiskStrategyError` in `core/src/core/strategy.rs`). -/
inductive RiskStrategyError where
  | NotEnoughHistory
deriving DecidableEq

/-- Account errors (`AccountError` in `core/src/core/account.rs`). -/
inductive AccountError where
  | DuplicateEntry (s : String)
  | NoMatchingEntry (s : String)
  | PositionAlreadyClosed (s : String)
deriving DecidableEq

/-- The mutable state of an `Account` (`core/src/core/account.rs`). The price
history is newest-first, as in `PriceHistory`; the strategy objects are passed
separately as functions where needed. `live_trade : Option Entry` mirrors the
source field, so at most one position is live by construction. -/
structure AccountState where
  balance : CurrencyAmount
  risk_per_trade : ℚ
  price_history : List Frame
  closed_trades : List Trade
  live_trade : Option Entry
deriving DecidableEq

/-- `Account::update_price` from `core/src/core/account.rs`. The trading
strategy and the risk strategy traits are embedded as function arguments
(`trend` and `riskEntry`). Returns the emitted orders and the updated state
(only the price history changes). The Rust `match` on the trend first tries
the two stop guards, then neutral close, then the two reversal closes. -/
def updatePrice (trendOf : List Frame → Trend)
    (riskEntry : Direction → List Frame → CurrencyAmount → Except RiskStrategyError Entry)
    (acc : AccountState) (frame : Frame) : List Order × AccountState :=
  let history := frame :: acc.price_history
  let time := frame.close_time
  let trend := trendOf history
  let exitOrders : List Order :=
    match acc.live_trade with
    | none => []
    | some lt =>
      if lt.direction = Direction.Buy ∧ frame.low.bid < lt.stop then
        [Order.Stop (lt.exit frame.close time)]
      else if lt.direction = Direction.Sell ∧ lt.stop < frame.high.ask then
        [Order.Stop (lt.exit frame.close time)]
      else match trend with
        | Trend.Neutral => [Order.Close (lt.exit frame.close time)]
        | Trend.Bullish =>
          if lt.direction = Direction.Sell then [Order.Close (lt.exit frame.close time)] else []
        | Trend.Bearish =>
          if lt.direction = Direction.Buy then [Order.Close (lt.exit frame.close time)] else []
  let openOrders : List Order :=
    if acc.live_trade = none ∨ 0 < exitOrders.length then
      match trend with
      | Trend.Bullish =>
        match riskEntry Direction.Buy history (acc.balance.mulD acc.risk_per_trade) with
        | Except.ok entry => [Order.Open entry]
        | Except.error _ => []
      | Trend.Bearish =>
        match riskEntry Direction.Sell history (acc.balance.mulD acc.risk_per_trade) with
        | Except.ok entry => [Order.Open entry]
        | Except.error _ => []
      | Trend.Neutral => []
    else []
  (exitOrders ++ openOrders, { acc with price_history := history })

/-- `Account::log_order` from `core/src/core/account.rs`. The result pairs the
Rust return value with the state after the call; the outer `Option` models a
panic (`none`), which can only come from the `unwrap` inside `Trade::closed`. -/
def logOrder (order : Order) (acc : AccountState) :
    Option (Except AccountError Unit × AccountState) :=
  match order, acc.live_trade with
  | Order.Open entry, none =>
    some (Except.ok (), { acc with live_trade := some entry })
  | Order.Open _, some entry =>
    some (Except.error (AccountError.DuplicateEntry entry.position_id), acc)
  | Order.Close exitO, none =>
    if acc.closed_trades.any (fun t => t.id = exitO.position_id) then
      some (Except.error (AccountError.PositionAlreadyClosed exitO.position_id), acc)
    else
      some (Except.error (AccountError.NoMatchingEntry exitO.position_id), acc)
  | Order.Stop exitO, none =>
    if acc.closed_trades.any (fun t => t.id = exitO.position_id) then
      some (Except.error (AccountError.PositionAlreadyClosed exitO.position_id), acc)
    else
      some (Except.error (AccountError.NoMatchingEntry exitO.position_id), acc)
  | Order.Close exitO, some entry =>
    match Trade.closed entry exitO with
    | none => none
    | some trade =>
      some (Except.ok (),
        { acc with
          balance := acc.balance.add trade.profit
          live_trade := none
          closed_trades := acc.closed_trades ++ [trade] })
  | Order.Stop exitO, some entry =>
    match Trade.closed entry exitO with
    | none => none
    | some trade =>
      some (Except.ok (),
        { acc with
          balance := acc.balance.add trade.profit
          live_trade := none
          closed_trades := acc.closed_trades ++ [trade] })

/-- Folding a sequence of `log_order` calls over an account, keeping the state
after each call whether it returned `Ok` or an error; `none` models a panic
anywhere in the sequence. -/
def logOrders (orders : List Order) (acc : AccountState) : Option AccountState :=
  match orders with
  | [] => some acc
  | o :: rest =>
    match logOrder o acc with
    | none => none
    | some (_, acc1) => logOrders rest acc1

/-- `Donchian::stop` from `core/src/strategies/donchian.rs` for a channel of
length `channel_length`: error when the history is shorter than the channel,
otherwise a fold of min/max over the `channel_length` most recent frames
seeded with the values of the most recent frame. Indexing `history[0]` on an empty
history panics, modelled by `none` (reachable only for `channel_length = 0`). -/
def donchianStop (channel_length : ℕ) (direction : Direction)
    (history : List Frame) : Option (Except RiskStrategyError Points) :=
  if history.length < channel_length then
    some (Except.error RiskStrategyError.NotEnoughHistory)
  else
    match history with
    | [] => none
    | f0 :: _ =>
      let limits := (history.take channel_length).foldl
        (fun limits frame => (min limits.1 frame.low.bid, max limits.2 frame.high.ask))
        (f0.low.bid, f0.high.ask)
      some (Except.ok (match direction with
        | Direction.Buy => limits.1
        | Direction.Sell => limits.2))

/-- One step of the streaming EMA (`EMA::next` in `core/src/core/maths.rs`):
with no previous output the sample is passed through (times `1.0`), otherwise
the exponential smoothing update is applied. -/
def emaStep (alpha : ℚ) (prev : Option ℚ) (current : ℚ) : ℚ :=
  match prev with
  | some p => current * alpha + p * (1 - alpha)
  | none => current * 1

/-- Running the EMA iterator over a finite sample list from a given `prev`
state. -/
def emaGo (alpha : ℚ) (prev : Option ℚ) : List ℚ → List ℚ
  | [] => []
  | c :: rest =>
    let v := emaStep alpha prev c
    v :: emaGo alpha (some v) rest

/-- The streaming EMA over a finite input (`EMA::new(iter, length)` collected;
`core/src/core/maths.rs`): smoothing factor `α = 2 / (length + 1)`, initial
`prev` state empty. -/
def ema (values : List ℚ) (length : ℕ) : List ℚ :=
  emaGo (2 / ((length : ℚ) + 1)) none values

/-! ## Helper lemmas -/

theorem ltCA_iff (a b : CurrencyAmount) :
    a.ltCA b = true ↔ (a.currency = b.currency ∧ a.amount < b.amount) := by
  simp [CurrencyAmount.ltCA]

theorem gtCA_iff (a b : CurrencyAmount) :
    a.gtCA b = true ↔ (a.currency = b.currency ∧ b.amount < a.amount) := by
  simp [CurrencyAmount.gtCA]

theorem mulD_currency (a : CurrencyAmount) (d : ℚ) :
    (a.mulD d).currency = a.currency := rfl

/-! ## Claims about market entry validation -/

/-- Claim C5: `Market::validate_entry` performs its three checks in this fixed
order and returns the first failure — `DealTooSmall` exactly when
`size < min_deal_size`; otherwise `InsufficientBalance` exactly when
`size × price × margin_factor > balance`; otherwise `StopTooClose` exactly
when `|price − stop| < min_stop_distance`; otherwise `Ok`. The comparisons on
currency amounts are the partial ones of the source. Being a plain function
of its arguments, it mutates no state. -/
theorem validate_entry_first_failure (m : Market) (e : Entry) (b : CurrencyAmount) :
    (m.validateEntry e b = Except.error MarketError.DealTooSmall ↔
      e.size.ltCA m.min_deal_size = true)
  ∧ (m.validateEntry e b = Except.error MarketError.InsufficientBalance ↔
      e.size.ltCA m.min_deal_size = false ∧ (m.marginRequirement e).gtCA b = true)
  ∧ (m.validateEntry e b = Except.error MarketError.StopTooClose ↔
      e.size.ltCA m.min_deal_size = false ∧ (m.marginRequirement e).gtCA b = false ∧
        |e.price - e.stop| < m.min_stop_distance)
  ∧ (m.validateEntry e b = Except.ok () ↔
      e.size.ltCA m.min_deal_size = false ∧ (m.marginRequirement e).gtCA b = false ∧
        ¬ (|e.price - e.stop| < m.min_stop_distance)) := by
  unfold Market.validateEntry
  split_ifs with h1 h2 h3 <;> simp_all

/-- Witness for C5: the four characterizations evaluated on the market and
entry of the `validates_an_ok_trade` test of the repository and its
three rejection variants. -/
theorem validate_entry_first_failure_witness :
    let m : Market := ⟨"GDAXI", 5/100, ⟨1/2, "GBP"⟩, 12⟩
    let b : CurrencyAmount := ⟨1000, "GBP"⟩
    let e : Entry := ⟨"", Direction.Buy, 15000, 15000 - 21, ⟨10/21, "GBP"⟩, 0⟩
    m.validateEntry e b = Except.error MarketError.DealTooSmall :=
  ((validate_entry_first_failure ⟨"GDAXI", 5/100, ⟨1/2, "GBP"⟩, 12⟩
    ⟨"", Direction.Buy, 15000, 15000 - 21, ⟨10/21, "GBP"⟩, 0⟩ ⟨1000, "GBP"⟩).1).mpr
    (by norm_num [CurrencyAmount.ltCA])

/-- Claim C10: because ordering of `CurrencyAmount` values with different
currencies is undefined (every `<` or `>` across currencies is `false`),
`validate_entry` never returns `DealTooSmall` when the size currency
differs from the `min_deal_size` currency, and never returns
`InsufficientBalance` when the margin-requirement currency differs from
the balance currency. -/
theorem validate_entry_currency_mismatch (m : Market) (e : Entry) (b : CurrencyAmount) :
    (e.size.currency ≠ m.min_deal_size.currency →
      m.validateEntry e b ≠ Except.error MarketError.DealTooSmall)
  ∧ ((m.marginRequirement e).currency ≠ b.currency →
      m.validateEntry e b ≠ Except.error MarketError.InsufficientBalance) := by
  constructor
  · intro hc habs
    rcases (ltCA_iff e.size m.min_deal_size).mp
      (((validate_entry_first_failure m e b).1).mp habs) with ⟨hcur, _⟩
    exact hc hcur
  · intro hc habs
    rcases ((validate_entry_first_failure m e b).2.1).mp habs with ⟨_, hgt⟩
    rcases (gtCA_iff (m.marginRequirement e) b).mp hgt with ⟨hcur, _⟩
    exact hc hcur

/-- Witness for C10: a GBP-sized entry against a USD minimum deal size and a
USD balance passes both skipped checks and validates `Ok`. -/
theorem validate_entry_currency_mismatch_witness :
    let m : Market := ⟨"GDAXI", 5/100, ⟨1000000, "USD"⟩, 12⟩
    let b : CurrencyAmount := ⟨0, "USD"⟩
    let e : Entry := ⟨"", Direction.Buy, 15000, 15000 - 21, ⟨1/10, "GBP"⟩, 0⟩
    m.validateEntry e b ≠ Except.error MarketError.DealTooSmall ∧
      m.validateEntry e b ≠ Except.error MarketError.InsufficientBalance :=
  ⟨(validate_entry_currency_mismatch ⟨"GDAXI", 5/100, ⟨1000000, "USD"⟩, 12⟩
      ⟨"", Direction.Buy, 15000, 15000 - 21, ⟨1/10, "GBP"⟩, 0⟩ ⟨0, "USD"⟩).1
      (by simp only [ne_eq, String.reduceEq, not_false_eq_true]),
   (validate_entry_currency_mismatch ⟨"GDAXI", 5/100, ⟨1000000, "USD"⟩, 12⟩
      ⟨"", Direction.Buy, 15000, 15000 - 21, ⟨1/10, "GBP"⟩, 0⟩ ⟨0, "USD"⟩).2
      (by simp only [Market.marginRequirement, mulD_currency]
          simp only [ne_eq, String.reduceEq, not_false_eq_true])⟩

/-! ## Claims about the trade projection -/

theorem roundDp6_zero : roundDp6 0 = 0 := by
  norm_num [roundDp6, roundHalfEven]

/-- Claim C7: every closed trade projected by `Trade::closed` satisfies, in
the fixed-point arithmetic of the source, `risk = size × |entry_price − stop|`
(scalar multiplication rounded to 6 decimal places), `risk_reward` is the
result of the checked currency division `profit / risk` (exact), `outcome` is
`Profit` iff `profit > 0`, and `profit` is `size × (exit − entry)` for Buy and
`size × (entry − exit)` for Sell at the recorded exit price. -/
theorem closed_trade_derived_fields (e : Entry) (x : Exit) (t : Trade)
    (h : Trade.closed e x = some t) :
    t.risk = t.size.mulD |t.entry_price - t.stop|
  ∧ t.profit.divCC t.risk = some t.risk_reward
  ∧ t.risk_reward = t.profit.amount / t.risk.amount
  ∧ (t.outcome = TradeOutcome.Profit ↔ 0 < t.profit.amount)
  ∧ t.exit_price = some x.price
  ∧ t.profit = (match t.direction with
      | Direction.Buy => t.size.mulD (x.price - t.entry_price)
      | Direction.Sell => t.size.mulD (t.entry_price - x.price)) := by
  unfold Trade.closed at h
  cases hd : e.direction
  case Buy =>
    rw [hd] at h
    dsimp only at h
    split at h
    · exact Option.noConfusion h
    · rename_i rr heq
      rw [Option.some.injEq] at h
      subst h
      refine ⟨rfl, heq, ?_, ?_, rfl, ?_⟩
      · unfold CurrencyAmount.divCC at heq
        split at heq
        · split at heq
          · exact absurd heq (by simp)
          · simpa using heq.symm
        · exact absurd heq (by simp)
      · dsimp only
        split_ifs with hpos <;> simp [hpos]
      · rfl
  case Sell =>
    rw [hd] at h
    dsimp only at h
    split at h
    · exact Option.noConfusion h
    · rename_i rr heq
      rw [Option.some.injEq] at h
      subst h
      refine ⟨rfl, heq, ?_, ?_, rfl, ?_⟩
      · unfold CurrencyAmount.divCC at heq
        split at heq
        · split at heq
          · exact absurd heq (by simp)
          · simpa using heq.symm
        · exact absurd heq (by simp)
      · dsimp only
        split_ifs with hpos <;> simp [hpos]
      · rfl

/-- Witness for C7: the closed Buy trade of the repository test
`logs_a_closed_trade_for_a_pair_of_orders` (entry 100, stop 90, size 1
GBP, exit 150) satisfies the derived-field equations. -/
theorem closed_trade_derived_fields_witness :
    ∃ t, Trade.closed ⟨"1", Direction.Buy, 100, 90, ⟨1, "GBP"⟩, 0⟩ ⟨"1", 150, 5⟩ = some t
      ∧ t.risk = t.size.mulD |t.entry_price - t.stop|
      ∧ t.profit.divCC t.risk = some t.risk_reward := by
  have h : Trade.closed ⟨"1", Direction.Buy, 100, 90, ⟨1, "GBP"⟩, 0⟩ ⟨"1", 150, 5⟩ =
      some ⟨"1", TradeStatus.ClosedT, Direction.Buy, 0, 100, some 5, some 150, 90,
        ⟨1, "GBP"⟩, ⟨10, "GBP"⟩, TradeOutcome.Profit, 50, ⟨50, "GBP"⟩, 5⟩ := by
    norm_num [Trade.closed, CurrencyAmount.mulD, CurrencyAmount.divCC, roundDp6, roundHalfEven]
  refine ⟨_, h, ?_, ?_⟩
  · exact (closed_trade_derived_fields _ _ _ h).1
  · exact (closed_trade_derived_fields _ _ _ h).2.1

/-- Claim C8, amended: the projection is not total — whenever the entry price
equals the entry stop, `Trade::closed` and `Trade::open` panic (the checked
division `(profit / risk).unwrap()` has a zero divisor), and whenever the
computed risk `size × |price − stop|` has a nonzero rounded amount the
projections return a `Trade`. (The original claim promised a `Trade` for
every entry with `price ≠ stop`; a zero size refutes that, see the
counterexample.) -/
theorem trade_projection_not_total (e : Entry) (x : Exit) (p : Price) :
    (e.price = e.stop → Trade.closed e x = none ∧ Trade.openTrade e p = none)
  ∧ ((e.size.mulD |e.price - e.stop|).amount ≠ 0 →
      (∃ t, Trade.closed e x = some t) ∧ ∃ t, Trade.openTrade e p = some t) := by
  constructor
  · intro hps
    have hz : e.size.mulD |e.price - e.stop| = ⟨0, e.size.currency⟩ := by
      simp [CurrencyAmount.mulD, hps, roundDp6_zero]
    constructor
    · unfold Trade.closed
      rw [hz]
      cases e.direction <;> simp [CurrencyAmount.divCC, CurrencyAmount.mulD]
    · unfold Trade.openTrade
      rw [hz]
      cases e.direction <;> simp [CurrencyAmount.divCC, CurrencyAmount.mulD]
  · intro hnz
    have hdiv : ∀ d : ℚ, (e.size.mulD d).divCC (e.size.mulD |e.price - e.stop|) =
        some ((e.size.mulD d).amount / (e.size.mulD |e.price - e.stop|).amount) := by
      intro d
      simp [CurrencyAmount.divCC, mulD_currency, hnz]
    constructor
    · unfold Trade.closed
      cases e.direction <;> simp [hdiv]
    · unfold Trade.openTrade
      cases e.direction <;> simp [hdiv]

/-- Witness for C8 (amended): at entry price 100 = stop 100 both projections
panic, and with risk amount 10 ≠ 0 the closed projection succeeds. -/
theorem trade_projection_not_total_witness :
    (Trade.closed ⟨"1", Direction.Buy, 100, 100, ⟨1, "GBP"⟩, 0⟩ ⟨"1", 150, 5⟩ = none
      ∧ Trade.openTrade ⟨"1", Direction.Buy, 100, 100, ⟨1, "GBP"⟩, 0⟩ ⟨151, 150⟩ = none)
  ∧ ∃ t, Trade.closed ⟨"1", Direction.Buy, 100, 90, ⟨1, "GBP"⟩, 0⟩ ⟨"1", 150, 5⟩ = some t :=
  ⟨(trade_projection_not_total ⟨"1", Direction.Buy, 100, 100, ⟨1, "GBP"⟩, 0⟩
      ⟨"1", 150, 5⟩ ⟨151, 150⟩).1 rfl,
   ((trade_projection_not_total ⟨"1", Direction.Buy, 100, 90, ⟨1, "GBP"⟩, 0⟩
      ⟨"1", 150, 5⟩ ⟨151, 150⟩).2
      (by norm_num [CurrencyAmount.mulD, roundDp6, roundHalfEven])).1⟩

/-- Counterexample for C8 as stated: an entry whose price (1) differs from
its stop (0) but whose size amount is 0 still makes `Trade::closed` panic —
the projection does not return a `Trade` for every entry with
`price ≠ stop`. -/
theorem trade_projection_cex :
    (1 : ℚ) ≠ (0 : ℚ)
  ∧ Trade.closed ⟨"1", Direction.Buy, 1, 0, ⟨0, "GBP"⟩, 0⟩ ⟨"1", 2, 1⟩ = none := by
  constructor
  · norm_num
  · norm_num [Trade.closed, CurrencyAmount.mulD, CurrencyAmount.divCC, roundDp6, roundHalfEven]

/-! ## Claims about the account state machine -/

/-- Claim C2: at most one position is live at any time. `Open` while no
position is live installs the entry as the live position and returns `Ok`;
`Open` while any position is live returns `DuplicateEntry` and leaves the
whole state (in particular the live position) unchanged; and after any
sequence of `log_order` calls the live-position slot holds at most one entry
(it is an `Option`, as in the source). -/
theorem log_order_single_position (acc : AccountState) (e : Entry) :
    (acc.live_trade = none →
      logOrder (Order.Open e) acc = some (Except.ok (), { acc with live_trade := some e }))
  ∧ (∀ l, acc.live_trade = some l →
      logOrder (Order.Open e) acc =
        some (Except.error (AccountError.DuplicateEntry l.position_id), acc))
  ∧ (∀ orders acc1, logOrders orders acc = some acc1 →
      (Option.toList acc1.live_trade).length ≤ 1) := by
  refine ⟨?_, ?_, ?_⟩
  · intro h
    simp [logOrder, h]
  · intro l h
    simp [logOrder, h]
  · intro orders acc1 _
    cases acc1.live_trade <;> simp

/-- Witness for C2: opening on a fresh account succeeds and a second `Open`
is rejected with `DuplicateEntry` carrying the id of the live position, leaving the
state unchanged. -/
theorem log_order_single_position_witness :
    (logOrder (Order.Open ⟨"1", Direction.Buy, 100, 90, ⟨1, "GBP"⟩, 0⟩)
        ⟨⟨1000, "GBP"⟩, 1/100, [], [], none⟩ =
      some (Except.ok (),
        ⟨⟨1000, "GBP"⟩, 1/100, [], [], some ⟨"1", Direction.Buy, 100, 90, ⟨1, "GBP"⟩, 0⟩⟩))
  ∧ (logOrder (Order.Open ⟨"2", Direction.Sell, 50, 60, ⟨1, "GBP"⟩, 1⟩)
        ⟨⟨1000, "GBP"⟩, 1/100, [], [], some ⟨"1", Direction.Buy, 100, 90, ⟨1, "GBP"⟩, 0⟩⟩ =
      some (Except.error (AccountError.DuplicateEntry "1"),
        ⟨⟨1000, "GBP"⟩, 1/100, [], [], some ⟨"1", Direction.Buy, 100, 90, ⟨1, "GBP"⟩, 0⟩⟩)) :=
  ⟨(log_order_single_position ⟨⟨1000, "GBP"⟩, 1/100, [], [], none⟩
      ⟨"1", Direction.Buy, 100, 90, ⟨1, "GBP"⟩, 0⟩).1 rfl,
   (log_order_single_position
      ⟨⟨1000, "GBP"⟩, 1/100, [], [], some ⟨"1", Direction.Buy, 100, 90, ⟨1, "GBP"⟩, 0⟩⟩
      ⟨"2", Direction.Sell, 50, 60, ⟨1, "GBP"⟩, 1⟩).2.1 _ rfl⟩

/-- Claim C3, amended: a `Close` or `Stop` order while a position is live
unconditionally closes the live position — appends the projected trade to the
closed ledger, adds its profit to the balance, clears the live slot and
returns `Ok` — with no condition on the position id of the exit, provided the
closed-trade projection of the live entry and the exit succeeds. (As stated
the claim is refuted by the panic of the projection when the price of the
live entry equals its stop, see the counterexample.) -/
theorem log_order_close_unconditional (acc : AccountState) (entry : Entry) (x : Exit)
    (tr : Trade) (hl : acc.live_trade = some entry) (hc : Trade.closed entry x = some tr) :
    logOrder (Order.Close x) acc =
      some (Except.ok (),
        { acc with
          balance := acc.balance.add tr.profit
          live_trade := none
          closed_trades := acc.closed_trades ++ [tr] })
  ∧ logOrder (Order.Stop x) acc =
      some (Except.ok (),
        { acc with
          balance := acc.balance.add tr.profit
          live_trade := none
          closed_trades := acc.closed_trades ++ [tr] }) := by
  constructor <;> simp [logOrder, hl, hc]

/-- Witness for C3 (amended): closing a live Buy position (entry 100, stop
90, size 1 GBP) at 150 with a *different* position id "7" still closes it,
credits 50 GBP and returns `Ok`. -/
theorem log_order_close_unconditional_witness :
    logOrder (Order.Close ⟨"7", 150, 5⟩)
      ⟨⟨1000, "GBP"⟩, 1/100, [], [], some ⟨"1", Direction.Buy, 100, 90, ⟨1, "GBP"⟩, 0⟩⟩ =
      some (Except.ok (),
        ⟨⟨1050, "GBP"⟩, 1/100, [],
          [⟨"1", TradeStatus.ClosedT, Direction.Buy, 0, 100, some 5, some 150, 90,
            ⟨1, "GBP"⟩, ⟨10, "GBP"⟩, TradeOutcome.Profit, 50, ⟨50, "GBP"⟩, 5⟩], none⟩) := by
  have hc : Trade.closed ⟨"1", Direction.Buy, 100, 90, ⟨1, "GBP"⟩, 0⟩ ⟨"7", 150, 5⟩ =
      some ⟨"1", TradeStatus.ClosedT, Direction.Buy, 0, 100, some 5, some 150, 90,
        ⟨1, "GBP"⟩, ⟨10, "GBP"⟩, TradeOutcome.Profit, 50, ⟨50, "GBP"⟩, 5⟩ := by
    norm_num [Trade.closed, CurrencyAmount.mulD, CurrencyAmount.divCC, roundDp6, roundHalfEven]
  have h := (log_order_close_unconditional
    ⟨⟨1000, "GBP"⟩, 1/100, [], [], some ⟨"1", Direction.Buy, 100, 90, ⟨1, "GBP"⟩, 0⟩⟩
    ⟨"1", Direction.Buy, 100, 90, ⟨1, "GBP"⟩, 0⟩ ⟨"7", 150, 5⟩ _ rfl hc).1
  rw [h]
  norm_num [CurrencyAmount.add]

/-- Counterexample for C3 as stated: with a live position whose entry price
equals its stop (both 100), a `Close` order makes `log_order` panic (the
`unwrap` inside `Trade::closed` hits a zero divisor) instead of returning
`Ok`. -/
theorem log_order_close_cex :
    logOrder (Order.Close ⟨"1", 150, 5⟩)
      ⟨⟨1000, "GBP"⟩, 1/100, [], [], some ⟨"1", Direction.Buy, 100, 100, ⟨1, "GBP"⟩, 0⟩⟩ =
      none := by
  norm_num [logOrder, Trade.closed, CurrencyAmount.mulD, CurrencyAmount.divCC,
    roundDp6, roundHalfEven]

/-- Claim C9: `log_order` is atomic on failure — whenever it returns an
error, the state after the call (balance, live position, closed-trade
ledger and price history alike) is exactly the state before it. -/
theorem log_order_atomic_on_error (o : Order) (acc acc1 : AccountState) (err : AccountError)
    (h : logOrder o acc = some (Except.error err, acc1)) : acc1 = acc := by
  cases o with
  | Open e =>
    cases hl : acc.live_trade with
    | none => simp [logOrder, hl] at h
    | some l =>
      simp only [logOrder, hl, Option.some.injEq, Prod.mk.injEq] at h
      exact h.2.symm
  | Close x =>
    cases hl : acc.live_trade with
    | none =>
      simp only [logOrder, hl] at h
      split at h <;>
        simpa using (Prod.mk.injEq _ _ _ _ ▸ Option.some.injEq _ _ ▸ h).2.symm
    | some l =>
      simp only [logOrder, hl] at h
      split at h
      · exact Option.noConfusion h
      · simp at h
  | Stop x =>
    cases hl : acc.live_trade with
    | none =>
      simp only [logOrder, hl] at h
      split at h <;>
        simpa using (Prod.mk.injEq _ _ _ _ ▸ Option.some.injEq _ _ ▸ h).2.symm
    | some l =>
      simp only [logOrder, hl] at h
      split at h
      · exact Option.noConfusion h
      · simp at h

/-- Witness for C9: a `Close` without any matching open fails with
`NoMatchingEntry` and leaves the fresh account exactly as it was. -/
theorem log_order_atomic_on_error_witness :
    (logOrder (Order.Close ⟨"3", 89, 2⟩) ⟨⟨1000, "GBP"⟩, 1/100, [], [], none⟩ =
      some (Except.error (AccountError.NoMatchingEntry "3"),
        ⟨⟨1000, "GBP"⟩, 1/100, [], [], none⟩))
  ∧ (⟨⟨1000, "GBP"⟩, 1/100, [], [], none⟩ : AccountState) =
      ⟨⟨1000, "GBP"⟩, 1/100, [], [], none⟩ :=
  ⟨by simp [logOrder], log_order_atomic_on_error (Order.Close ⟨"3", 89, 2⟩)
    ⟨⟨1000, "GBP"⟩, 1/100, [], [], none⟩ _ (AccountError.NoMatchingEntry "3")
    (by simp [logOrder])⟩

/-! ## Claims about the streaming EMA -/

theorem emaGo_length (alpha : ℚ) (prev : Option ℚ) (l : List ℚ) :
    (emaGo alpha prev l).length = l.length := by
  induction l generalizing prev with
  | nil => rfl
  | cons c rest ih => simp [emaGo, ih]

theorem emaGo_getD_succ (alpha : ℚ) (prev : Option ℚ) (l : List ℚ) (i : ℕ)
    (h : i + 1 < l.length) :
    (emaGo alpha prev l).getD (i + 1) 0 =
      l.getD (i + 1) 0 * alpha + (emaGo alpha prev l).getD i 0 * (1 - alpha) := by
  induction l generalizing prev i with
  | nil => simp at h
  | cons c rest ih =>
    cases rest with
    | nil => simp at h
    | cons c2 r2 =>
      cases i with
      | zero => simp [emaGo, emaStep]
      | succ j =>
        have h2 : j + 1 < (c2 :: r2).length := by
          simpa using Nat.lt_of_succ_lt_succ h
        simpa [emaGo] using ih (some (emaStep alpha prev c)) j h2

/-- Claim C6: the streaming EMA of a finite input of length `n` with window
`N` has length `n`, is empty on the empty input, starts with the first input
sample, and satisfies `output[i] = α·input[i] + (1−α)·output[i−1]` for
`0 < i < n` with `α = 2/(N+1)`. -/
theorem ema_streaming_recurrence (l : List ℚ) (N : ℕ) :
    (ema l N).length = l.length
  ∧ ema [] N = []
  ∧ (0 < l.length → (ema l N).getD 0 0 = l.getD 0 0)
  ∧ (∀ i, 0 < i → i < l.length →
      (ema l N).getD i 0 =
        2 / ((N : ℚ) + 1) * l.getD i 0 +
          (1 - 2 / ((N : ℚ) + 1)) * (ema l N).getD (i - 1) 0) := by
  refine ⟨emaGo_length _ _ _, rfl, ?_, ?_⟩
  · intro hl
    cases l with
    | nil => simp at hl
    | cons c rest => simp [ema, emaGo, emaStep]
  · intro i hi hlen
    obtain ⟨j, rfl⟩ : ∃ j, i = j + 1 := ⟨i - 1, (Nat.succ_pred_eq_of_pos hi).symm⟩
    have h := emaGo_getD_succ (2 / ((N : ℚ) + 1)) none l j hlen
    rw [ema, h, Nat.add_sub_cancel]
    ring

/-- Witness for C6: the EMA of `[0, 4]` with window length 3 (`α = 1/2`) has
length 2, starts at 0, and its second element is `1/2·4 + 1/2·0 = 2`. -/
theorem ema_streaming_recurrence_witness :
    (ema [0, 4] 3).length = 2
  ∧ (ema [0, 4] 3).getD 0 0 = 0
  ∧ (ema [0, 4] 3).getD 1 0 =
      2 / ((3 : ℚ) + 1) * 4 + (1 - 2 / ((3 : ℚ) + 1)) * (ema [0, 4] 3).getD 0 0 :=
  ⟨(ema_streaming_recurrence [0, 4] 3).1,
   by simpa using (ema_streaming_recurrence [0, 4] 3).2.2.1 (by decide),
   by simpa using (ema_streaming_recurrence [0, 4] 3).2.2.2 1 (by decide) (by decide)⟩

/-! ## Claims about the Donchian channel stop -/

theorem foldl_min_eq_or_mem (l : List ℚ) (a : ℚ) :
    l.foldl min a = a ∨ l.foldl min a ∈ l := by
  induction l generalizing a with
  | nil => exact Or.inl rfl
  | cons c rest ih =>
    rcases ih (min a c) with h | h
    · rcases min_choice a c with hm | hm
      · exact Or.inl (by rw [List.foldl_cons, h, hm])
      · exact Or.inr (by rw [List.foldl_cons, h, hm]; exact List.mem_cons_self _ _)
    · exact Or.inr (List.mem_cons_of_mem _ h)

theorem foldl_min_le_init (l : List ℚ) (a : ℚ) : l.foldl min a ≤ a := by
  induction l generalizing a with
  | nil => exact le_refl a
  | cons c rest ih =>
    exact le_trans (ih (min a c)) (min_le_left a c)

theorem foldl_min_le_mem (l : List ℚ) (a : ℚ) (x : ℚ) (hx : x ∈ l) :
    l.foldl min a ≤ x := by
  induction l generalizing a with
  | nil => cases hx
  | cons c rest ih =>
    rcases List.mem_cons.mp hx with rfl | h
    · exact le_trans (foldl_min_le_init rest (min a x)) (min_le_right a x)
    · exact ih (min a c) h

theorem foldl_max_eq_or_mem (l : List ℚ) (a : ℚ) :
    l.foldl max a = a ∨ l.foldl max a ∈ l := by
  induction l generalizing a with
  | nil => exact Or.inl rfl
  | cons c rest ih =>
    rcases ih (max a c) with h | h
    · rcases max_choice a c with hm | hm
      · exact Or.inl (by rw [List.foldl_cons, h, hm])
      · exact Or.inr (by rw [List.foldl_cons, h, hm]; exact List.mem_cons_self _ _)
    · exact Or.inr (List.mem_cons_of_mem _ h)

theorem foldl_max_init_le (l : List ℚ) (a : ℚ) : a ≤ l.foldl max a := by
  induction l generalizing a with
  | nil => exact le_refl a
  | cons c rest ih =>
    exact le_trans (le_max_left a c) (ih (max a c))

theorem foldl_max_mem_le (l : List ℚ) (a : ℚ) (x : ℚ) (hx : x ∈ l) :
    x ≤ l.foldl max a := by
  induction l generalizing a with
  | nil => cases hx
  | cons c rest ih =>
    rcases List.mem_cons.mp hx with rfl | h
    · exact le_trans (le_max_right a x) (foldl_max_init_le rest (max a x))
    · exact ih (max a c) h

theorem foldl_minmax_pair (l : List Frame) (a b : ℚ) :
    l.foldl (fun limits frame => (min limits.1 frame.low.bid, max limits.2 frame.high.ask))
        (a, b) =
      (l.foldl (fun m frame => min m frame.low.bid) a,
        l.foldl (fun M frame => max M frame.high.ask) b) := by
  induction l generalizing a b with
  | nil => rfl
  | cons f rest ih => simp [List.foldl_cons, ih]

/-- Claim C4, amended: for a Donchian strategy with channel length `N ≥ 1`,
`stop` fails with `NotEnoughHistory` exactly when the history is shorter than
`N`; otherwise the Buy stop is the minimum of the low bid prices of the `N`
most recent frames and the Sell stop is the maximum of their high ask prices
(membership plus the bound characterize the minimum/maximum). (For `N = 0`
the source behaves as for `N = 1` on nonempty history, refuting the claim as
stated; see the counterexample.) -/
theorem donchian_stop_channel (N : ℕ) (h : List Frame) (hN : 1 ≤ N) :
    (donchianStop N Direction.Buy h =
        some (Except.error RiskStrategyError.NotEnoughHistory) ↔ h.length < N)
  ∧ (donchianStop N Direction.Sell h =
        some (Except.error RiskStrategyError.NotEnoughHistory) ↔ h.length < N)
  ∧ (N ≤ h.length →
      ∃ lo hi, donchianStop N Direction.Buy h = some (Except.ok lo)
        ∧ donchianStop N Direction.Sell h = some (Except.ok hi)
        ∧ lo ∈ (h.take N).map (fun f => f.low.bid)
        ∧ (∀ q ∈ (h.take N).map (fun f => f.low.bid), lo ≤ q)
        ∧ hi ∈ (h.take N).map (fun f => f.high.ask)
        ∧ ∀ q ∈ (h.take N).map (fun f => f.high.ask), q ≤ hi) := by
  obtain ⟨m, rfl⟩ : ∃ m, N = m + 1 := ⟨N - 1, (Nat.succ_pred_eq_of_pos hN).symm⟩
  have herr : ∀ d, (donchianStop (m + 1) d h =
      some (Except.error RiskStrategyError.NotEnoughHistory) ↔ h.length < m + 1) := by
    intro d
    by_cases hlen : h.length < m + 1
    · simp [donchianStop, hlen]
    · cases h with
      | nil => exact absurd (by simp : ([] : List Frame).length < m + 1) hlen
      | cons f0 t => simp [donchianStop, hlen]
  refine ⟨herr _, herr _, ?_⟩
  intro hle
  cases h with
  | nil => exact absurd hle (Nat.not_succ_le_zero _)
  | cons f0 t =>
    have hlen : ¬ (f0 :: t).length < m + 1 := not_lt.mpr hle
    have htake : (f0 :: t).take (m + 1) = f0 :: t.take m := rfl
    have hmin : ((f0 :: t.take m).map (fun f => f.low.bid)).foldl min f0.low.bid =
        (f0 :: t.take m).foldl (fun m0 frame => min m0 frame.low.bid) f0.low.bid :=
      List.foldl_map _ _ _ _
    have hmax : ((f0 :: t.take m).map (fun f => f.high.ask)).foldl max f0.high.ask =
        (f0 :: t.take m).foldl (fun M frame => max M frame.high.ask) f0.high.ask :=
      List.foldl_map _ _ _ _
    have hpair : ((f0 :: t).take (m + 1)).foldl
        (fun limits frame => (min limits.1 frame.low.bid, max limits.2 frame.high.ask))
        (f0.low.bid, f0.high.ask) =
        (((f0 :: t.take m).map (fun f => f.low.bid)).foldl min f0.low.bid,
         ((f0 :: t.take m).map (fun f => f.high.ask)).foldl max f0.high.ask) := by
      rw [htake, foldl_minmax_pair, hmin, hmax]
    have hstopB : donchianStop (m + 1) Direction.Buy (f0 :: t) =
        some (Except.ok (((f0 :: t).take (m + 1)).foldl
          (fun limits frame => (min limits.1 frame.low.bid, max limits.2 frame.high.ask))
          (f0.low.bid, f0.high.ask)).1) := by
      unfold donchianStop
      rw [if_neg hlen]
    have hstopS : donchianStop (m + 1) Direction.Sell (f0 :: t) =
        some (Except.ok (((f0 :: t).take (m + 1)).foldl
          (fun limits frame => (min limits.1 frame.low.bid, max limits.2 frame.high.ask))
          (f0.low.bid, f0.high.ask)).2) := by
      unfold donchianStop
      rw [if_neg hlen]
    rw [hpair] at hstopB hstopS
    refine ⟨_, _, hstopB, hstopS, ?_, ?_, ?_, ?_⟩
    · rw [htake]
      rcases foldl_min_eq_or_mem ((f0 :: t.take m).map fun f => f.low.bid) f0.low.bid
        with hc | hc
      · rw [hc]
        exact List.mem_cons_self _ _
      · exact hc
    · intro q hq
      rw [htake] at hq
      exact foldl_min_le_mem _ _ _ hq
    · rw [htake]
      rcases foldl_max_eq_or_mem ((f0 :: t.take m).map fun f => f.high.ask) f0.high.ask
        with hc | hc
      · rw [hc]
        exact List.mem_cons_self _ _
      · exact hc
    · intro q hq
      rw [htake] at hq
      exact foldl_max_mem_le _ _ _ hq

/-- A frame oscillation sample: low bid 599, high ask 1001 (as in the
Donchian tests of the repository). -/
def oscFrameA : Frame :=
  ⟨⟨1001, 999⟩, ⟨1001, 1000⟩, ⟨600, 599⟩, ⟨1000, 999⟩, 0⟩

/-- The opposite oscillation sample: low bid 601, high ask 999. -/
def oscFrameB : Frame :=
  ⟨⟨999, 997⟩, ⟨999, 998⟩, ⟨602, 601⟩, ⟨998, 997⟩, 1⟩

/-- Counterexample for C4 as stated: with channel length `N = 0` and a
nonempty history, `stop` succeeds and returns the low bid of the most recent
frame (599) even though the set of low bids over the `0` most recent frames is
empty — no value can be its minimum, so the claim fails at `N = 0`. -/
theorem donchian_stop_cex :
    donchianStop 0 Direction.Buy [oscFrameA] = some (Except.ok 599)
  ∧ ([oscFrameA].take 0).map (fun f => f.low.bid) = [] := by
  constructor
  · rfl
  · rfl

/-- Witness for C4 (amended): with channel length 1 an empty history yields
`NotEnoughHistory`, and with channel length 2 over the oscillating pair the
channel is `(599, 1001)`. -/
theorem donchian_stop_channel_witness :
    donchianStop 1 Direction.Buy [] = some (Except.error RiskStrategyError.NotEnoughHistory)
  ∧ (∃ lo hi, donchianStop 2 Direction.Buy [oscFrameA, oscFrameB] = some (Except.ok lo)
      ∧ donchianStop 2 Direction.Sell [oscFrameA, oscFrameB] = some (Except.ok hi)
      ∧ lo ∈ ([oscFrameA, oscFrameB].take 2).map (fun f => f.low.bid)
      ∧ (∀ q ∈ ([oscFrameA, oscFrameB].take 2).map (fun f => f.low.bid), lo ≤ q)
      ∧ hi ∈ ([oscFrameA, oscFrameB].take 2).map (fun f => f.high.ask)
      ∧ ∀ q ∈ ([oscFrameA, oscFrameB].take 2).map (fun f => f.high.ask), q ≤ hi) :=
  ⟨((donchian_stop_channel 1 [] (by decide)).1).mpr (by decide),
   (donchian_stop_channel 2 [oscFrameA, oscFrameB] (by decide)).2.2 (by decide)⟩

/-! ## Claims about price updates (stop triggering) -/

/-- Recognizer for `Stop` orders. -/
def Order.isStopOrder : Order → Bool
  | Order.Stop _ => true
  | _ => false

/-- Recognizer for `Close` orders. -/
def Order.isCloseOrder : Order → Bool
  | Order.Close _ => true
  | _ => false

/-- Claim C1, amended: for every account (any trading and risk strategy)
with a live Buy position, a price update whose frame has a low bid *strictly
less* than the stop of the position emits exactly one `Stop(Exit)` order,
whose price is the close bid of that frame; symmetrically, for a live Sell
position a frame whose high ask is *strictly greater* than the stop emits
exactly one `Stop(Exit)` at the close ask of the frame. No `Close` order is emitted on the
same update, and the fill is at the close, never at the stop level. (The
original claim allowed equality; at `low bid = stop` no order is emitted,
see the counterexample.) -/
theorem update_price_stop_exit (trendOf : List Frame → Trend)
    (riskEntry : Direction → List Frame → CurrencyAmount → Except RiskStrategyError Entry)
    (acc : AccountState) (frame : Frame) (lt : Entry)
    (hl : acc.live_trade = some lt) :
    (lt.direction = Direction.Buy → frame.low.bid < lt.stop →
      (updatePrice trendOf riskEntry acc frame).1.filter Order.isStopOrder =
          [Order.Stop ⟨lt.position_id, frame.close.bid, frame.close_time⟩]
        ∧ (updatePrice trendOf riskEntry acc frame).1.filter Order.isCloseOrder = [])
  ∧ (lt.direction = Direction.Sell → lt.stop < frame.high.ask →
      (updatePrice trendOf riskEntry acc frame).1.filter Order.isStopOrder =
          [Order.Stop ⟨lt.position_id, frame.close.ask, frame.close_time⟩]
        ∧ (updatePrice trendOf riskEntry acc frame).1.filter Order.isCloseOrder = []) := by
  constructor
  · intro hd hlt
    cases htr : trendOf (frame :: acc.price_history) with
    | Neutral =>
      simp [updatePrice, hl, hd, hlt, htr, Entry.exit, Order.isStopOrder, Order.isCloseOrder]
    | Bullish =>
      cases hre : riskEntry Direction.Buy (frame :: acc.price_history)
          (acc.balance.mulD acc.risk_per_trade) <;>
        simp [updatePrice, hl, hd, hlt, htr, hre, Entry.exit,
          Order.isStopOrder, Order.isCloseOrder]
    | Bearish =>
      cases hre : riskEntry Direction.Sell (frame :: acc.price_history)
          (acc.balance.mulD acc.risk_per_trade) <;>
        simp [updatePrice, hl, hd, hlt, htr, hre, Entry.exit,
          Order.isStopOrder, Order.isCloseOrder]
  · intro hd hlt
    cases htr : trendOf (frame :: acc.price_history) with
    | Neutral =>
      simp [updatePrice, hl, hd, hlt, htr, Entry.exit, Order.isStopOrder, Order.isCloseOrder]
    | Bullish =>
      cases hre : riskEntry Direction.Buy (frame :: acc.price_history)
          (acc.balance.mulD acc.risk_per_trade) <;>
        simp [updatePrice, hl, hd, hlt, htr, hre, Entry.exit,
          Order.isStopOrder, Order.isCloseOrder]
    | Bearish =>
      cases hre : riskEntry Direction.Sell (frame :: acc.price_history)
          (acc.balance.mulD acc.risk_per_trade) <;>
        simp [updatePrice, hl, hd, hlt, htr, hre, Entry.exit,
          Order.isStopOrder, Order.isCloseOrder]

/-- Counterexample for C1 as stated: a live Buy position with stop 90 and a
frame whose low bid *equals* 90 (≤ the stop) and whose trend is Bullish
emits no order at all — in particular not exactly one `Stop`. -/
theorem update_price_stop_cex :
    (90 : ℚ) ≤ 90
  ∧ (updatePrice (fun _ => Trend.Bullish)
        (fun _ _ _ => Except.error RiskStrategyError.NotEnoughHistory)
        ⟨⟨1000, "GBP"⟩, 1, [], [], some ⟨"1", Direction.Buy, 100, 90, ⟨1, "GBP"⟩, 0⟩⟩
        ⟨⟨201, 199⟩, ⟨151, 149⟩, ⟨91, 90⟩, ⟨101, 99⟩, 10⟩).1 = [] := by
  exact ⟨le_refl 90, rfl⟩

/-- Witness for C1 (amended): the `triggers_a_stop` scenario — a live Buy
position with stop 90 and a frame with low bid 49 and close bid 199 emits
exactly the `Stop` exit at 199 and no `Close`. -/
theorem update_price_stop_exit_witness :
    (updatePrice (fun _ => Trend.Neutral)
        (fun _ _ _ => Except.error RiskStrategyError.NotEnoughHistory)
        ⟨⟨1000, "GBP"⟩, 1, [], [], some ⟨"2", Direction.Buy, 100, 90, ⟨1, "GBP"⟩, 0⟩⟩
        ⟨⟨201, 199⟩, ⟨151, 149⟩, ⟨50, 49⟩, ⟨101, 99⟩, 10⟩).1.filter Order.isStopOrder =
      [Order.Stop ⟨"2", 199, 10⟩]
  ∧ (updatePrice (fun _ => Trend.Neutral)
        (fun _ _ _ => Except.error RiskStrategyError.NotEnoughHistory)
        ⟨⟨1000, "GBP"⟩, 1, [], [], some ⟨"2", Direction.Buy, 100, 90, ⟨1, "GBP"⟩, 0⟩⟩
        ⟨⟨201, 199⟩, ⟨151, 149⟩, ⟨50, 49⟩, ⟨101, 99⟩, 10⟩).1.filter Order.isCloseOrder = [] :=
  (update_price_stop_exit (fun _ => Trend.Neutral)
      (fun _ _ _ => Except.error RiskStrategyError.NotEnoughHistory)
      ⟨⟨1000, "GBP"⟩, 1, [], [], some ⟨"2", Direction.Buy, 100, 90, ⟨1, "GBP"⟩, 0⟩⟩
      ⟨⟨201, 199⟩, ⟨151, 149⟩, ⟨50, 49⟩, ⟨101, 99⟩, 10⟩
      ⟨"2", Direction.Buy, 100, 90, ⟨1, "GBP"⟩, 0⟩ rfl).1 rfl (by decide)

end Betty
